import Mathlib

/-!
Verification development for `tgops.py` (terragrunt stack utilities).

The program's core is embedded shallowly:

* Log lines are modelled as `String`s without their terminating newline;
  a log file is a `List String` (the program writes every line with a
  trailing `"\n"`, and `fileText` reproduces the flat file content).
  A possibly-absent file is `Option (List String)` (`none` = no file).
* Python `str` helpers (`lstrip`, `strip`, `lower`, `startswith`, `in`,
  `replace`) are embedded on `List Char`; `\s` and the whitespace set of
  `strip` are modelled by the ASCII whitespace characters
  `' '`, `'\t'`, `'\n'`, `'\r'`, `'\x0b'`, `'\x0c'`, and `lower` by the
  ASCII case map (all characters relevant to the program are ASCII).
* The regex `TOFU_RE = .*\[(?P<module>[^\]]+)\]\s+tofu:\s(?P<message>.*)`
  applied with `re.match` is embedded by `tofuScan`: the greedy leading
  `.*` selects the rightmost `[` from which the rest of the pattern
  matches; `[^\]]+` takes the maximal nonempty run of non-`]` characters
  followed by `]`; `\s+` a nonempty maximal whitespace run; then the
  literal `tofu:`; then one whitespace character and the message.  Since
  in the source the matched line carries its trailing newline (which the
  single `\s` after `tofu:` may consume, with an empty message), the
  embedding accepts end-of-line in place of that final `\s`.
* Python dicts preserve insertion order; `defaultdict(list)` grouping and
  the summary's `dict` are modelled as ordered association lists.
-/

/-- Python ASCII whitespace test: the characters matched by `\s` and
stripped by `str.strip` / `str.lstrip` (ASCII fragment). -/
def isPySpace (c : Char) : Bool :=
  c == ' ' || c == '\t' || c == '\n' || c == '\r' || c == '\x0b' || c == '\x0c'

/-- Python `str.lower` on one character (ASCII fragment). -/
def pyToLower (c : Char) : Char :=
  if 'A' ≤ c ∧ c ≤ 'Z' then Char.ofNat (c.toNat + 32) else c

/-- Python `str.lower` (ASCII fragment), on a character list. -/
def toLowerL (l : List Char) : List Char :=
  l.map pyToLower

/-- Python `str.lstrip()` on a character list. -/
def pyLstrip (l : List Char) : List Char :=
  l.dropWhile isPySpace

/-- Python `str.rstrip()` on a character list. -/
def pyRstrip (l : List Char) : List Char :=
  (l.reverse.dropWhile isPySpace).reverse

/-- Python `str.strip()` on a character list. -/
def pyStrip (l : List Char) : List Char :=
  pyRstrip (pyLstrip l)

/-- Python `text.startswith(pat)` on character lists (text first). -/
def startsWithL : List Char → List Char → Bool
  | _, [] => true
  | [], _ :: _ => false
  | c :: cs, p :: ps => if c = p then startsWithL cs ps else false

/-- Python `pat in text` (substring test) on character lists (text first). -/
def containsL : List Char → List Char → Bool
  | [], pat => startsWithL [] pat
  | c :: cs, pat => startsWithL (c :: cs) pat || containsL cs pat

/-- Python `pat in text` on strings. -/
def containsStr (s pat : String) : Bool :=
  containsL s.data pat.data

/-- Python `"".join(lines)` / string concatenation of a list of strings. -/
def strConcat (l : List String) : String :=
  l.foldl (· ++ ·) ""

/-- Flat content of a log file: every stored line followed by `"\n"`,
exactly as the program writes lines to the file. -/
def fileText (lines : List String) : String :=
  strConcat (lines.map (fun ln => ln ++ "\n"))

/-- Python `s.replace(old, new, 1)`: replace the first (leftmost)
occurrence of `old` in `s` by `new`; `s` unchanged when absent. -/
def replaceFirst (old new : List Char) : List Char → List Char
  | [] => if old.isEmpty then new else []
  | c :: cs =>
      if startsWithL (c :: cs) old then new ++ (c :: cs).drop old.length
      else c :: replaceFirst old new cs

/-- The stack path marker `".terragrunt-stack/"` stripped from module
identifiers in `_collect_unit_entries`. -/
def stackMarkerL : List Char :=
  ".terragrunt-stack/".data

/-- Left-to-right removal of every non-overlapping occurrence of the
(nonempty) marker, with an explicit fuel bound for structural recursion:
every step consumes at least one character, so any fuel of at least the
list's length computes the full removal. -/
def removeMarkerAux : Nat → List Char → List Char
  | 0, l => l
  | _ + 1, [] => []
  | fuel + 1, c :: cs =>
      if startsWithL (c :: cs) stackMarkerL then
        removeMarkerAux fuel ((c :: cs).drop stackMarkerL.length)
      else
        c :: removeMarkerAux fuel cs

/-- Python `module.replace(".terragrunt-stack/", "")`: left-to-right
removal of every non-overlapping occurrence of the marker. -/
def removeMarker (l : List Char) : List Char :=
  removeMarkerAux l.length l

/-- Match of `[^\]]+\]` : the maximal run of non-`]` characters (returned
with the remainder after the closing `]`); `none` when no `]` follows. -/
def takeUntilRB : List Char → Option (List Char × List Char)
  | [] => none
  | c :: cs =>
      if c = ']' then some ([], cs)
      else
        match takeUntilRB cs with
        | some (m, r) => some (c :: m, r)
        | none => none

/-- Attempted match of `\[(?P<module>[^\]]+)\]\s+tofu:\s(?P<message>.*)`
anchored at the head of the list; the final `\s` may be satisfied by the
line's (elided) terminating newline when the line ends right after
`tofu:`. -/
def tofuMatchAt : List Char → Option (List Char × List Char)
  | [] => none
  | c :: cs =>
      if c = '[' then
        match takeUntilRB cs with
        | none => none
        | some (m, rest1) =>
            if m.isEmpty then none
            else
              match rest1 with
              | [] => none
              | d :: rest2 =>
                  if isPySpace d then
                    match (rest2.dropWhile isPySpace) with
                    | rest3 =>
                        if startsWithL rest3 "tofu:".data then
                          match rest3.drop 5 with
                          | [] => some (m, [])
                          | e :: rest4 =>
                              if isPySpace e then some (m, rest4) else none
                        else none
                  else none
      else none

/-- Embedding of `TOFU_RE.match(ln)`: the greedy leading `.*` makes the
regex engine try match positions right-to-left, so the rightmost position
from which `tofuMatchAt` succeeds wins. -/
def tofuScan : List Char → Option (List Char × List Char)
  | [] => none
  | c :: cs =>
      match tofuScan cs with
      | some r => some r
      | none => tofuMatchAt (c :: cs)

-- Data model

/-- Per-unit diff summary extracted from plan logs (`StackDiffs` in the
source); `diffs` models the insertion-ordered `dict` as an association
list. -/
structure StackDiffs where
  stable : List String
  diffs : List (String × List String)
deriving DecidableEq, Repr

/-- Result of a relayed command (`CommandResult` in the source). -/
structure CommandResult where
  code : Int
  stdout : String
  stderr : String
deriving DecidableEq, Repr

-- Log summarizer

/-- Embedding of `_normalize_diff_line` on character lists.  The source
computes `stripped = line.lstrip()`, walks the replacement table
`{"~": "!", "+": "+", "-": "-"}` in insertion order, and for the first
key `k` that `stripped` starts with returns
`v + line.replace(stripped, stripped[1:], 1)`. -/
def normalizeL (line : List Char) : List Char :=
  if startsWithL (pyLstrip line) ['~'] then
    '!' :: replaceFirst (pyLstrip line) ((pyLstrip line).drop 1) line
  else if startsWithL (pyLstrip line) ['+'] then
    '+' :: replaceFirst (pyLstrip line) ((pyLstrip line).drop 1) line
  else if startsWithL (pyLstrip line) ['-'] then
    '-' :: replaceFirst (pyLstrip line) ((pyLstrip line).drop 1) line
  else line

/-- Embedding of `_normalize_diff_line` on strings. -/
def normalize_diff_line (line : String) : String :=
  String.mk (normalizeL line.data)

/-- Appending a message under a unit key in the insertion-ordered
grouping (the effect of `entries[unit].append(message)` on a
`defaultdict(list)`). -/
def addEntry (k v : String) : List (String × List String) → List (String × List String)
  | [] => [(k, [v])]
  | (k', vs) :: rest =>
      if k' = k then (k', vs ++ [v]) :: rest
      else (k', vs) :: addEntry k v rest

/-- One iteration of the loop body of `_collect_unit_entries`: match the
line against `TOFU_RE`; on success strip the stack marker from the module
and record the message. -/
def collectStep (acc : List (String × List String)) (ln : String) : List (String × List String) :=
  match tofuScan ln.data with
  | none => acc
  | some (m, msg) => addEntry (String.mk (removeMarker m)) (String.mk msg) acc

/-- Embedding of `_collect_unit_entries`: group tofu messages by unit
from a plan log file's lines. -/
def collect_unit_entries (lines : List String) : List (String × List String) :=
  lines.foldl collectStep []

/-- The source's stability test on one message:
`msg.strip().lower().startswith("no changes")`. -/
def noChangesMsg (msg : String) : Bool :=
  startsWithL (toLowerL (pyStrip msg.data)) "no changes".data

/-- Classification loop of `_summarize_unit_logs` over the grouped
entries: a unit with some no-changes message goes to `stable`, any other
unit to `diffs` with its messages normalized. -/
def summarizeEntries : List (String × List String) → StackDiffs
  | [] => ⟨[], []⟩
  | (u, msgs) :: rest =>
      if msgs.any noChangesMsg then
        ⟨u :: (summarizeEntries rest).stable, (summarizeEntries rest).diffs⟩
      else
        ⟨(summarizeEntries rest).stable, (u, msgs.map normalize_diff_line) :: (summarizeEntries rest).diffs⟩

/-- Summary of an existing log file's lines (the body of
`_summarize_unit_logs` after the existence check). -/
def summarizeLines (lines : List String) : StackDiffs :=
  summarizeEntries (collect_unit_entries lines)

/-- Embedding of `_summarize_unit_logs`: `none` when the log file does
not exist (the function logs a warning and returns `None`), otherwise
the summary of its lines. -/
def summarize_unit_logs : Option (List String) → Option StackDiffs
  | none => none
  | some lines => some (summarizeLines lines)

-- Report command

/-- Exit-code classification of `plan_github_pr_comment` on the log
file's full text: substring tests for `terragrunt-exit-code=` markers,
in the order `=0`, `=1`, `=2`; `Except.error` models
`typer.BadParameter`. -/
def classifyContent (content : String) : Except String String :=
  if containsStr content "terragrunt-exit-code=" then
    if containsStr content "terragrunt-exit-code=0" then Except.ok "NO_CHANGES"
    else if containsStr content "terragrunt-exit-code=1" then Except.ok "HAS_ERROR"
    else if containsStr content "terragrunt-exit-code=2" then Except.ok "HAS_CHANGES"
    else Except.error "Unexpected exit code marker in log file"
  else Except.error "Log file missing terragrunt-exit-code marker"

/-- Rendering of one changed unit's collapsible section in the
has-changes branch of `GITHUB_PR_COMMENT_TMPL` (whitespace follows the
template's `-%}` controls; see `renderComment`). -/
def changedSection (u : String) (lns : List String) : String :=
  "- `" ++ u ++ "`\n\n<details>\n<summary>Changes to " ++ u ++ "</summary>\n\n```diff\n"
    ++ strConcat (lns.map (fun ln => ln ++ "\n")) ++ "```\n\n</details>\n\n"

/-- Rendering of `GITHUB_PR_COMMENT_TMPL` under jinja2's default
environment (no trim/lstrip blocks, trailing template newline dropped):
the template opens with a literal newline; `-%}` on a tag removes the
whitespace that follows it; `{% endif %}` without a dash keeps the
following newlines.  The `NO_CHANGES` and `HAS_ERROR` branches render a
flat message; the has-changes branch lists stable units (or `None`) and
a `<details>` section per changed unit (or `None`).  A condition
`diffs and diffs.stable` is falsy when `diffs` is `None` or the list is
empty. -/
def renderComment (state : String) (d : Option StackDiffs) : String :=
  if state = "NO_CHANGES" then "\nNo changes detected.\n"
  else if state = "HAS_ERROR" then "\nErrors found. See logs.\n"
  else
    "\nUnchanged units:\n\n"
      ++ (match d with
          | some sd =>
              if sd.stable.isEmpty then "None\n"
              else strConcat (sd.stable.map (fun u => "- `" ++ u ++ "`\n"))
          | none => "None\n")
      ++ "\n\n\nChanged units:\n\n"
      ++ (match d with
          | some sd =>
              if sd.diffs.isEmpty then "None\n"
              else strConcat (sd.diffs.map (fun p => changedSection p.1 p.2))
          | none => "None\n")
      ++ "\n\n"

/-- Embedding of the `plan-github-pr-comment` command on the log file
(`none` = absent file): existence check, marker check and exit-code
classification on the raw content, then summary and template rendering.
`Except.ok` carries the text written to the output file; `Except.error`
models `typer.BadParameter` (whose message also names the path for the
missing-file case, elided here). -/
def plan_github_pr_comment (file : Option (List String)) : Except String String :=
  match file with
  | none => Except.error "Log file not found"
  | some lines =>
      match classifyContent (fileText lines) with
      | Except.error e => Except.error e
      | Except.ok state =>
          Except.ok (renderComment state (summarize_unit_logs (some lines)))

-- Runner.plan and the exit-code sentinel

/-- The sentinel line written by `_write_exit_marker` (without the
trailing newline, per the line representation). -/
def sentinelLine (code : Int) : String :=
  "terragrunt-exit-code=" ++ toString code

/-- Environment of one `Runner.plan` run: the lines the plan command
writes to the log (both streams, in arrival order), its exit code, and
the lines the follow-up `show` command writes. -/
structure PlanEnv where
  planOut : List String
  planCode : Int
  showOut : List String
deriving Repr

/-- Log file produced by `Runner.plan`: when a log file is requested it
is removed if present (so starts empty) and receives the plan output;
when the exit code is not 1 the `show` output and then the exit-code
sentinel are appended; without a requested log file nothing is written. -/
def runnerPlanLog (requested : Bool) (env : PlanEnv) : Option (List String) :=
  if requested then
    if env.planCode ≠ 1 then
      some (env.planOut ++ env.showOut ++ [sentinelLine env.planCode])
    else
      some env.planOut
  else
    none

/-- Number of lines of a log that are of the sentinel form (begin with
`terragrunt-exit-code=`). -/
def sentinelCount (log : List String) : Nat :=
  (log.filter (fun ln => startsWithL ln.data "terragrunt-exit-code=".data)).length

-- Stream relay (run_live)

/-- Origin of one relayed line: the child's standard output or standard
error stream. -/
inductive StreamTag where
  | stdoutTag : StreamTag
  | stderrTag : StreamTag
deriving DecidableEq, Repr

/-- Effect of relaying one line: the `_drain` thread of the line's
stream appends it to that stream's collector. -/
def relayStep (acc : List String × List String) (ev : StreamTag × String) :
    List String × List String :=
  match ev.1 with
  | StreamTag.stdoutTag => (acc.1 ++ [ev.2], acc.2)
  | StreamTag.stderrTag => (acc.1, acc.2 ++ [ev.2])

/-- Interleaved execution of the two `_drain` threads of `run_live`: a
schedule lists, in global arrival order, each line with the stream it
was read from; each thread appends its lines to its own collector. -/
def relayFold (sched : List (StreamTag × String)) : List String × List String :=
  sched.foldl relayStep ([], [])

/-- Lines of a schedule read from standard output, in order. -/
def outProj (sched : List (StreamTag × String)) : List String :=
  sched.filterMap (fun ev => match ev.1 with
    | StreamTag.stdoutTag => some ev.2
    | StreamTag.stderrTag => none)

/-- Lines of a schedule read from standard error, in order. -/
def errProj (sched : List (StreamTag × String)) : List String :=
  sched.filterMap (fun ev => match ev.1 with
    | StreamTag.stdoutTag => none
    | StreamTag.stderrTag => some ev.2)

/-- Embedding of `run_live`'s result: after the process exits and both
drain threads are joined, the `CommandResult` carries the exit code and
`"".join` of each collector. -/
def run_live (code : Int) (sched : List (StreamTag × String)) : CommandResult :=
  ⟨code, strConcat (relayFold sched).1, strConcat (relayFold sched).2⟩

-- Spec-side definitions (for refinement comparison)

/-- Modelled from the spec's words for claim C3: a message counts as a
no-changes message when, case-insensitively and after trimming leading
whitespace, it begins with `"no changes"`. -/
def noChangesSpec (msg : String) : Bool :=
  startsWithL (toLowerL (pyLstrip msg.data)) "no changes".data

/-- Keys of an ordered association list (unit names of a grouping or of
a diff mapping). -/
def keysOf (l : List (String × List String)) : List String :=
  l.map Prod.fst

-- Helper lemmas

theorem swl_prefix_iff : ∀ (p x : List Char), startsWithL x p = true ↔ p <+: x
  | [], x => by cases x <;> simp [startsWithL]
  | p :: ps, [] => by simp [startsWithL]
  | p :: ps, c :: cs => by
      simp only [startsWithL, List.cons_prefix_cons]
      by_cases h : c = p
      · subst h
        simp [swl_prefix_iff ps cs]
      · rw [if_neg h]
        simp only [Bool.false_eq_true, false_iff, not_and]
        intro hpc
        exact absurd hpc.symm h

theorem swl_self (l : List Char) : startsWithL l l = true :=
  (swl_prefix_iff l l).mpr (List.prefix_refl l)

theorem swl_append_left {x p : List Char} (y : List Char) (h : startsWithL x p = true) :
    startsWithL (x ++ y) p = true :=
  (swl_prefix_iff p (x ++ y)).mpr
    (((swl_prefix_iff p x).mp h).trans (List.prefix_append x y))

theorem swl_mono_pat : ∀ (p q s : List Char), startsWithL s (p ++ q) = true →
    startsWithL s p = true
  | [], _, s, _ => by cases s <;> simp [startsWithL]
  | p :: ps, q, [], h => by simp [startsWithL] at h
  | p :: ps, q, c :: cs, h => by
      simp only [List.cons_append, startsWithL] at h ⊢
      by_cases hc : c = p
      · simpa [hc] using swl_mono_pat ps q cs (by simpa [hc] using h)
      · simp [hc] at h

theorem containsL_mono : ∀ (s p q : List Char), containsL s (p ++ q) = true →
    containsL s p = true
  | [], p, q, h => by
      cases p with
      | nil => simp [containsL, startsWithL]
      | cons a as => simp [containsL, startsWithL] at h
  | c :: cs, p, q, h => by
      simp only [containsL, Bool.or_eq_true] at h ⊢
      rcases h with h | h
      · exact Or.inl (swl_mono_pat p q _ h)
      · exact Or.inr (containsL_mono cs p q h)

theorem rstrip_append (a : List Char) :
    pyRstrip a ++ (a.reverse.takeWhile isPySpace).reverse = a := by
  have h := congrArg List.reverse (List.takeWhile_append_dropWhile isPySpace a.reverse)
  rw [List.reverse_append, List.reverse_reverse] at h
  simpa [pyRstrip] using h

theorem mem_rstrip_tail {a : List Char} {c : Char}
    (h : c ∈ (a.reverse.takeWhile isPySpace).reverse) : isPySpace c = true :=
  List.mem_takeWhile_imp (List.mem_reverse.mp h)

theorem pyToLower_of_space {c : Char} (h : isPySpace c = true) : pyToLower c = c := by
  simp only [isPySpace, Bool.or_eq_true, beq_iff_eq] at h
  rcases h with ((((h | h) | h) | h) | h) | h <;> subst h <;> decide

theorem toLowerL_space_id {sp : List Char} (h : ∀ c ∈ sp, isPySpace c = true) :
    toLowerL sp = sp := by
  induction sp with
  | nil => rfl
  | cons c cs ih =>
      simp only [toLowerL, List.map_cons]
      rw [pyToLower_of_space (h c (by simp))]
      have := ih (fun d hd => h d (by simp [hd]))
      simpa [toLowerL] using this

theorem swl_lower_rstrip (a : List Char) :
    startsWithL (toLowerL (pyRstrip a)) "no changes".data =
    startsWithL (toLowerL a) "no changes".data := by
  have hdec : pyRstrip a ++ (a.reverse.takeWhile isPySpace).reverse = a := rstrip_append a
  have hspc : ∀ c ∈ (a.reverse.takeWhile isPySpace).reverse, isPySpace c = true :=
    fun c hc => mem_rstrip_tail hc
  have hta : toLowerL a = toLowerL (pyRstrip a) ++ (a.reverse.takeWhile isPySpace).reverse := by
    conv_lhs => rw [← hdec]
    rw [show ∀ u v : List Char, toLowerL (u ++ v) = toLowerL u ++ toLowerL v from
      fun u v => List.map_append pyToLower u v]
    rw [toLowerL_space_id hspc]
  rw [hta]
  cases hcase : startsWithL (toLowerL (pyRstrip a)) "no changes".data with
  | true => exact (swl_append_left _ hcase).symm
  | false =>
      cases hcase2 : startsWithL (toLowerL (pyRstrip a) ++ (a.reverse.takeWhile isPySpace).reverse)
          "no changes".data with
      | false => rfl
      | true =>
          exfalso
          have hpre : "no changes".data <+: _ := (swl_prefix_iff _ _).mp hcase2
          have hxpre := List.prefix_append (toLowerL (pyRstrip a)) (a.reverse.takeWhile isPySpace).reverse
          rcases List.prefix_or_prefix_of_prefix hpre hxpre with hnx | hxn
          · exact absurd ((swl_prefix_iff _ _).mpr hnx) (by simp [hcase])
          · obtain ⟨t, ht⟩ := hxn
            obtain ⟨u, hu⟩ := hpre
            rw [← ht] at hu
            have hu' : toLowerL (pyRstrip a) ++ (t ++ u)
                = toLowerL (pyRstrip a) ++ (a.reverse.takeWhile isPySpace).reverse := by
              simpa [List.append_assoc] using hu
            have hsp_eq : t ++ u = (a.reverse.takeWhile isPySpace).reverse :=
              List.append_cancel_left hu'
            by_cases htn : t = []
            · subst htn
              rw [List.append_nil] at ht
              have : startsWithL (toLowerL (pyRstrip a)) "no changes".data = true := by
                rw [ht]
                exact swl_self _
              exact absurd this (by simp [hcase])
            · have h1 : ("no changes".data).getLast? = t.getLast? := by
                rw [← ht]
                exact List.getLast?_append_of_ne_nil _ htn
              have h2 : ("no changes".data).getLast? = some 's' := by decide
              have hts : t.getLast? = some 's' := h1.symm.trans h2
              have hmem : 's' ∈ t := List.mem_of_mem_getLast? (Option.mem_def.mpr hts)
              have hsm : 's' ∈ (a.reverse.takeWhile isPySpace).reverse := by
                rw [← hsp_eq]
                exact List.mem_append_left _ hmem
              have := hspc 's' hsm
              simp [isPySpace] at this

theorem noChangesMsg_eq_spec (msg : String) : noChangesMsg msg = noChangesSpec msg := by
  simpa [noChangesMsg, noChangesSpec, pyStrip] using swl_lower_rstrip (pyLstrip msg.data)

theorem mem_keys_addEntry (k v u : String) : ∀ (l : List (String × List String)),
    u ∈ keysOf (addEntry k v l) ↔ u = k ∨ u ∈ keysOf l
  | [] => by simp [addEntry, keysOf]
  | (k', vs) :: rest => by
      by_cases h : k' = k
      · subst h
        simp only [addEntry]
        rw [if_pos trivial]
        simp only [keysOf, List.map_cons, List.mem_cons]
        tauto
      · simp only [addEntry, if_neg h]
        simp only [keysOf, List.map_cons, List.mem_cons]
        have ih := mem_keys_addEntry k v u rest
        simp only [keysOf] at ih
        rw [ih]
        tauto

theorem nodup_keys_addEntry (k v : String) : ∀ (l : List (String × List String)),
    (keysOf l).Nodup → (keysOf (addEntry k v l)).Nodup
  | [] => by simp [addEntry, keysOf]
  | (k', vs) :: rest => by
      intro h
      by_cases hk : k' = k
      · subst hk
        simp only [addEntry]
        rw [if_pos trivial]
        simpa [keysOf] using h
      · simp only [keysOf, List.map_cons, List.nodup_cons] at h
        simp only [addEntry, if_neg hk, keysOf, List.map_cons, List.nodup_cons]
        refine ⟨?_, nodup_keys_addEntry k v rest (by simpa [keysOf] using h.2)⟩
        intro hmem
        have hmem' := (mem_keys_addEntry k v k' rest).mp hmem
        rcases hmem' with h1 | h1
        · exact hk h1
        · exact h.1 h1

theorem nodup_keys_collectStep (acc : List (String × List String)) (ln : String)
    (h : (keysOf acc).Nodup) : (keysOf (collectStep acc ln)).Nodup := by
  cases htc : tofuScan ln.data with
  | none => simpa [collectStep, htc] using h
  | some p => simpa [collectStep, htc] using nodup_keys_addEntry _ _ acc h

theorem nodup_keys_collect_aux : ∀ (lines : List String) (acc : List (String × List String)),
    (keysOf acc).Nodup → (keysOf (lines.foldl collectStep acc)).Nodup
  | [], _, h => h
  | ln :: rest, acc, h =>
      nodup_keys_collect_aux rest _ (nodup_keys_collectStep acc ln h)

theorem nodup_keys_collect (lines : List String) :
    (keysOf (collect_unit_entries lines)).Nodup :=
  nodup_keys_collect_aux lines [] (by simp [keysOf])

theorem stable_sub_keys : ∀ (l : List (String × List String)) (u : String),
    u ∈ (summarizeEntries l).stable → u ∈ keysOf l
  | [], u, h => by simp [summarizeEntries] at h
  | (k, msgs) :: rest, u, h => by
      simp only [summarizeEntries] at h
      by_cases ha : msgs.any noChangesMsg = true
      · rw [if_pos ha] at h
        rcases List.mem_cons.mp h with h1 | h1
        · simp [keysOf, h1]
        · exact List.mem_cons_of_mem _ (stable_sub_keys rest u h1)
      · rw [if_neg ha] at h
        exact List.mem_cons_of_mem _ (stable_sub_keys rest u h)

theorem diffs_sub_keys : ∀ (l : List (String × List String)) (u : String),
    u ∈ keysOf (summarizeEntries l).diffs → u ∈ keysOf l
  | [], u, h => by simp [summarizeEntries, keysOf] at h
  | (k, msgs) :: rest, u, h => by
      simp only [summarizeEntries] at h
      by_cases ha : msgs.any noChangesMsg = true
      · rw [if_pos ha] at h
        exact List.mem_cons_of_mem _ (diffs_sub_keys rest u h)
      · rw [if_neg ha] at h
        rcases List.mem_cons.mp h with h1 | h1
        · simp [keysOf, h1]
        · exact List.mem_cons_of_mem _ (diffs_sub_keys rest u h1)

theorem mem_stable_iff_entries : ∀ (l : List (String × List String)),
    (keysOf l).Nodup → ∀ (u : String) (msgs : List String), (u, msgs) ∈ l →
    (u ∈ (summarizeEntries l).stable ↔ msgs.any noChangesMsg = true)
  | [], _, u, msgs, hm => by simp at hm
  | (k, kmsgs) :: rest, hnd, u, msgs, hm => by
      have hnd1 : k ∉ keysOf rest := by
        have := (List.nodup_cons.mp (show (k :: keysOf rest).Nodup from hnd)).1
        exact this
      have hnd2 : (keysOf rest).Nodup :=
        (List.nodup_cons.mp (show (k :: keysOf rest).Nodup from hnd)).2
      rcases List.mem_cons.mp hm with h1 | h1
      · obtain ⟨hu, hmsgs⟩ := Prod.ext_iff.mp h1
        subst hu
        subst hmsgs
        simp only [summarizeEntries]
        by_cases ha : msgs.any noChangesMsg = true
        · rw [if_pos ha]
          simp [ha]
        · rw [if_neg ha]
          constructor
          · intro hmem
            exact absurd (stable_sub_keys rest u hmem) hnd1
          · intro hany
            exact absurd hany ha
      · have hukeys : u ∈ keysOf rest := by
          simp only [keysOf, List.mem_map]
          exact ⟨(u, msgs), h1, rfl⟩
        have ih := mem_stable_iff_entries rest hnd2 u msgs h1
        simp only [summarizeEntries]
        by_cases ha : kmsgs.any noChangesMsg = true
        · rw [if_pos ha]
          rw [← ih]
          constructor
          · intro h2
            rcases List.mem_cons.mp h2 with h3 | h3
            · exact absurd (h3 ▸ hukeys) hnd1
            · exact h3
          · exact fun h2 => List.mem_cons_of_mem _ h2
        · rw [if_neg ha]
          exact ih

theorem stable_diffs_disjoint : ∀ (l : List (String × List String)),
    (keysOf l).Nodup → ∀ (u : String),
    u ∈ (summarizeEntries l).stable → u ∉ keysOf (summarizeEntries l).diffs
  | [], _, u, hs => by simp [summarizeEntries] at hs
  | (k, msgs) :: rest, hnd, u, hs => by
      have hnd1 : k ∉ keysOf rest :=
        (List.nodup_cons.mp (show (k :: keysOf rest).Nodup from hnd)).1
      have hnd2 : (keysOf rest).Nodup :=
        (List.nodup_cons.mp (show (k :: keysOf rest).Nodup from hnd)).2
      simp only [summarizeEntries] at hs ⊢
      by_cases ha : msgs.any noChangesMsg = true
      · rw [if_pos ha] at hs ⊢
        rcases List.mem_cons.mp hs with h1 | h1
        · subst h1
          intro hmem
          exact hnd1 (diffs_sub_keys rest u hmem)
        · exact stable_diffs_disjoint rest hnd2 u h1
      · rw [if_neg ha] at hs ⊢
        intro hmem
        rcases List.mem_cons.mp hmem with h1 | h1
        · subst h1
          exact hnd1 (stable_sub_keys rest u hs)
        · exact stable_diffs_disjoint rest hnd2 u hs h1

theorem stable_diffs_union : ∀ (l : List (String × List String)) (u : String),
    (u ∈ (summarizeEntries l).stable ∨ u ∈ keysOf (summarizeEntries l).diffs)
      ↔ u ∈ keysOf l
  | [], u => by simp [summarizeEntries, keysOf]
  | (k, msgs) :: rest, u => by
      simp only [summarizeEntries]
      have ih := stable_diffs_union rest u
      by_cases ha : msgs.any noChangesMsg = true
      · rw [if_pos ha]
        show u ∈ k :: (summarizeEntries rest).stable ∨ u ∈ keysOf (summarizeEntries rest).diffs
          ↔ u ∈ k :: keysOf rest
        simp only [List.mem_cons]
        rw [← ih]
        tauto
      · rw [if_neg ha]
        show u ∈ (summarizeEntries rest).stable
            ∨ u ∈ k :: keysOf (summarizeEntries rest).diffs
          ↔ u ∈ k :: keysOf rest
        simp only [List.mem_cons]
        rw [← ih]
        tauto

theorem collect_aux_nomatch : ∀ (lines : List String) (acc : List (String × List String)),
    (∀ ln ∈ lines, tofuScan ln.data = none) → lines.foldl collectStep acc = acc
  | [], _, _ => rfl
  | ln :: rest, acc, h => by
      have hstep : collectStep acc ln = acc := by
        simp [collectStep, h ln (by simp)]
      show rest.foldl collectStep (collectStep acc ln) = acc
      rw [hstep]
      exact collect_aux_nomatch rest acc (fun l hl => h l (by simp [hl]))

theorem pyLstrip_space_append : ∀ (ws : List Char), (∀ c ∈ ws, isPySpace c = true) →
    ∀ (d : Char) (r : List Char), isPySpace d = false → pyLstrip (ws ++ d :: r) = d :: r
  | [], _, d, r, hd => by simp [pyLstrip, List.dropWhile_cons, hd]
  | c :: ws', h, d, r, hd => by
      have hc : isPySpace c = true := h c (by simp)
      have ih := pyLstrip_space_append ws' (fun x hx => h x (by simp [hx])) d r hd
      simpa [pyLstrip, List.dropWhile_cons, hc] using ih

theorem replaceFirst_space_append : ∀ (ws : List Char), (∀ c ∈ ws, isPySpace c = true) →
    ∀ (d : Char) (r : List Char), isPySpace d = false →
    replaceFirst (d :: r) r (ws ++ d :: r) = ws ++ r
  | [], _, d, r, _ => by
      simp only [List.nil_append, replaceFirst]
      rw [if_pos (swl_self (d :: r))]
      simp
  | c :: ws', h, d, r, hd => by
      have hc : isPySpace c = true := h c (by simp)
      have hcd : ¬(c = d) := by
        intro he
        rw [he, hd] at hc
        exact Bool.false_ne_true hc
      have ih := replaceFirst_space_append ws' (fun x hx => h x (by simp [hx])) d r hd
      simp only [List.cons_append, replaceFirst]
      rw [if_neg (by simp [startsWithL, hcd])]
      show c :: replaceFirst (d :: r) r (ws' ++ d :: r) = c :: (ws' ++ r)
      rw [ih]

theorem normalizeL_space (ws r : List Char) (hws : ∀ c ∈ ws, isPySpace c = true) :
    normalizeL (ws ++ '~' :: r) = '!' :: (ws ++ r)
    ∧ normalizeL (ws ++ '+' :: r) = '+' :: (ws ++ r)
    ∧ normalizeL (ws ++ '-' :: r) = '-' :: (ws ++ r) := by
  refine ⟨?_, ?_, ?_⟩
  · have hl := pyLstrip_space_append ws hws '~' r (by decide)
    simp only [normalizeL, hl]
    rw [if_pos (by simp [startsWithL])]
    rw [show ('~' :: r).drop 1 = r from rfl]
    rw [replaceFirst_space_append ws hws '~' r (by decide)]
  · have hl := pyLstrip_space_append ws hws '+' r (by decide)
    simp only [normalizeL, hl]
    rw [if_neg (by simp [startsWithL]), if_pos (by simp [startsWithL])]
    rw [show ('+' :: r).drop 1 = r from rfl]
    rw [replaceFirst_space_append ws hws '+' r (by decide)]
  · have hl := pyLstrip_space_append ws hws '-' r (by decide)
    simp only [normalizeL, hl]
    rw [if_neg (by simp [startsWithL]), if_neg (by simp [startsWithL]),
      if_pos (by simp [startsWithL])]
    rw [show ('-' :: r).drop 1 = r from rfl]
    rw [replaceFirst_space_append ws hws '-' r (by decide)]

theorem relayFold_aux : ∀ (sched : List (StreamTag × String)) (acc : List String × List String),
    sched.foldl relayStep acc = (acc.1 ++ outProj sched, acc.2 ++ errProj sched)
  | [], acc => by simp [outProj, errProj]
  | (tag, s) :: rest, acc => by
      cases tag with
      | stdoutTag =>
          show rest.foldl relayStep (acc.1 ++ [s], acc.2) = _
          rw [relayFold_aux rest (acc.1 ++ [s], acc.2)]
          simp [outProj, errProj, List.filterMap_cons]
      | stderrTag =>
          show rest.foldl relayStep (acc.1, acc.2 ++ [s]) = _
          rw [relayFold_aux rest (acc.1, acc.2 ++ [s])]
          simp [outProj, errProj, List.filterMap_cons]

theorem relayFold_eq_proj (sched : List (StreamTag × String)) :
    relayFold sched = (outProj sched, errProj sched) := by
  rw [relayFold, relayFold_aux sched ([], [])]
  simp

theorem any_noChanges_eq (msgs : List String) :
    msgs.any noChangesMsg = msgs.any noChangesSpec := by
  induction msgs with
  | nil => rfl
  | cons m ms ih => simp [List.any_cons, noChangesMsg_eq_spec m, ih]

-- Claim theorems

/-- C1: for a log file containing exactly the lines
`[unit-a] tofu: No changes. Infrastructure is up-to-date.` and
`[unit-b] tofu: ~ update resource "x"`, the summarizer returns a
`StackDiffs` with stable `["unit-a"]` and diffs mapping `"unit-b"` to
`["! update resource \"x\""]`. -/
theorem c1_roundtrip_example :
    summarizeLines
        ["[unit-a] tofu: No changes. Infrastructure is up-to-date.",
          "[unit-b] tofu: ~ update resource \"x\""]
      = ⟨["unit-a"], [("unit-b", ["! update resource \"x\""])]⟩ := by
  decide

/-- C2 counterexample: the claim says lines whose stripped form begins
with `+` or `-` pass through unchanged and that a leading `~` is
replaced in place, preserving the leading whitespace in front of the
marker; but on `" + x"` the code returns `"+  x"` (the marker is moved
in front of the whitespace), and on `"  ~ y"` it returns `"!   y"`, not
the in-place `"  ! y"`. -/
theorem c2_counterexample :
    normalize_diff_line " + x" = "+  x" ∧ normalize_diff_line " + x" ≠ " + x"
    ∧ normalize_diff_line "  ~ y" = "!   y" ∧ normalize_diff_line "  ~ y" ≠ "  ! y" := by
  refine ⟨by decide, by decide, by decide, by decide⟩

/-- C2 amended: for a message line made of leading whitespace `ws`
followed by a marker (`~`, `+` or `-`) and a remainder `r`, the
normalization returns the translated marker (`~` becomes `!`, `+` and
`-` stay) followed by the original leading whitespace and the remainder;
so lines without leading whitespace keep `+`/`-` unchanged and get `~`
replaced in place, while any leading whitespace moves behind the
marker. -/
theorem c2_amended (ws r : List Char) (hws : ∀ c ∈ ws, isPySpace c = true) :
    normalize_diff_line (String.mk (ws ++ '~' :: r)) = String.mk ('!' :: (ws ++ r))
    ∧ normalize_diff_line (String.mk (ws ++ '+' :: r)) = String.mk ('+' :: (ws ++ r))
    ∧ normalize_diff_line (String.mk (ws ++ '-' :: r)) = String.mk ('-' :: (ws ++ r)) := by
  obtain ⟨h1, h2, h3⟩ := normalizeL_space ws r hws
  exact ⟨by simp [normalize_diff_line, h1], by simp [normalize_diff_line, h2],
    by simp [normalize_diff_line, h3]⟩

/-- C2 amended, witnessed at `ws = " "`, `r = "y"`. -/
theorem c2_amended_witness :
    normalize_diff_line (String.mk ([' '] ++ '~' :: ['y'])) = String.mk ('!' :: ([' '] ++ ['y']))
    ∧ normalize_diff_line (String.mk ([' '] ++ '+' :: ['y'])) = String.mk ('+' :: ([' '] ++ ['y']))
    ∧ normalize_diff_line (String.mk ([' '] ++ '-' :: ['y'])) = String.mk ('-' :: ([' '] ++ ['y'])) :=
  c2_amended [' '] ['y'] (by decide)

/-- C3: a unit with at least one parsed message is classified stable if
and only if some of its messages, case-insensitively and after trimming
leading whitespace, begins with `"no changes"`. -/
theorem c3_stable_iff (lines : List String) (u : String) (msgs : List String)
    (h : (u, msgs) ∈ collect_unit_entries lines) :
    u ∈ (summarizeLines lines).stable ↔ msgs.any noChangesSpec = true := by
  have hm := mem_stable_iff_entries (collect_unit_entries lines)
    (nodup_keys_collect lines) u msgs h
  rw [any_noChanges_eq msgs] at hm
  exact hm

/-- C3, witnessed on the tie-break example: the unit `u` with messages
`["no changes", "+ add resource y"]` is classified stable. -/
theorem c3_stable_iff_witness :
    "u" ∈ (summarizeLines ["[u] tofu: no changes", "[u] tofu: + add resource y"]).stable
    ∧ ["no changes", "+ add resource y"].any noChangesSpec = true := by
  refine ⟨?_, by decide⟩
  exact (c3_stable_iff ["[u] tofu: no changes", "[u] tofu: + add resource y"] "u"
    ["no changes", "+ add resource y"] (by decide)).mpr (by decide)

/-- C4 counterexample: the claim says any non-zero exit code other
than 2 yields the error report `"Errors found. See logs."`, but with the
sentinel recording code 3 the report command raises a parameter error
(`Unexpected exit code marker in log file`) and produces no report at
all. -/
theorem c4_counterexample :
    plan_github_pr_comment (some ["terragrunt-exit-code=3"])
      = Except.error "Unexpected exit code marker in log file" := by
  rfl

/-- C4 amended: for a log file whose content is a single sentinel line
with a one-digit recorded code `c`, the report command yields the clean
report `"\nNo changes detected.\n"` for code 0, the error report
`"\nErrors found. See logs.\n"` for code 1, the has-changes report for
code 2, and fails with a parameter error (instead of producing the error
report) for every other one-digit code. -/
theorem c4_amended (c : Int) (h0 : 0 ≤ c) (h9 : c < 10) :
    plan_github_pr_comment (some ["terragrunt-exit-code=" ++ toString c]) =
      if c = 0 then Except.ok "\nNo changes detected.\n"
      else if c = 1 then Except.ok "\nErrors found. See logs.\n"
      else if c = 2 then
        Except.ok (renderComment "HAS_CHANGES"
          (some (summarizeLines ["terragrunt-exit-code=" ++ toString c])))
      else Except.error "Unexpected exit code marker in log file" := by
  interval_cases c <;> rfl

/-- C4 amended, witnessed at code 0. -/
theorem c4_amended_witness :
    plan_github_pr_comment (some ["terragrunt-exit-code=" ++ toString (0 : Int)])
      = Except.ok "\nNo changes detected.\n" := by
  simpa using c4_amended 0 (by decide) (by decide)

/-- C5 counterexample: the claim says every plan run with a requested
log file appends exactly one sentinel line, but when the plan exit code
is 1 the run appends no sentinel at all (the log holds only the plan
output). -/
theorem c5_counterexample :
    runnerPlanLog true ⟨["plan output line"], 1, []⟩ = some ["plan output line"]
    ∧ sentinelCount ["plan output line"] = 0 := by
  refine ⟨by decide, by decide⟩

/-- C5 amended: when a log file is requested and the plan exit code is
not 1, the final log is the plan output, then the show output, then
exactly one sentinel line (last); when the exit code is 1 the log is the
plan output alone with no sentinel; when no log file is requested no log
(and no sentinel) is written. -/
theorem c5_amended (env : PlanEnv) :
    (env.planCode ≠ 1 →
      runnerPlanLog true env = some (env.planOut ++ env.showOut ++ [sentinelLine env.planCode]))
    ∧ (env.planCode = 1 → runnerPlanLog true env = some env.planOut)
    ∧ runnerPlanLog false env = none := by
  refine ⟨fun h => by simp [runnerPlanLog, h], fun h => by simp [runnerPlanLog, h], rfl⟩

/-- C5 amended, witnessed at a clean plan run. -/
theorem c5_amended_witness :
    runnerPlanLog true ⟨["a"], 0, ["b"]⟩ = some (["a"] ++ ["b"] ++ [sentinelLine 0])
    ∧ runnerPlanLog false ⟨["a"], 0, ["b"]⟩ = none :=
  ⟨(c5_amended ⟨["a"], 0, ["b"]⟩).1 (by decide), (c5_amended ⟨["a"], 0, ["b"]⟩).2.2⟩

/-- C6: for any interleaved schedule of the two drain threads whose
standard-output projection is `outs` and standard-error projection is
`errs`, the relay's result carries the concatenation of `outs` as
captured stdout and of `errs` as captured stderr, regardless of the
interleaving. -/
theorem c6_relay_captures (code : Int) (sched : List (StreamTag × String))
    (outs errs : List String) (ho : outProj sched = outs) (he : errProj sched = errs) :
    run_live code sched = ⟨code, strConcat outs, strConcat errs⟩ := by
  simp [run_live, relayFold_eq_proj, ho, he]

/-- C6, witnessed on an interleaved three-line schedule. -/
theorem c6_relay_captures_witness :
    run_live 0
        [(StreamTag.stdoutTag, "o1\n"), (StreamTag.stderrTag, "e1\n"),
          (StreamTag.stdoutTag, "o2\n")]
      = ⟨0, strConcat ["o1\n", "o2\n"], strConcat ["e1\n"]⟩ :=
  c6_relay_captures 0 _ ["o1\n", "o2\n"] ["e1\n"] (by decide) (by decide)

/-- C7: the summarizer returns the absent result exactly when the log
file does not exist; an existing file always yields a summary. -/
theorem c7_absent_iff (file : Option (List String)) :
    summarize_unit_logs file = none ↔ file = none := by
  cases file <;> simp [summarize_unit_logs]

/-- C8: no unit name is both in the stable list and a key of the diffs
mapping, and together they are exactly the (stripped) unit names of the
grouped entries. -/
theorem c8_partition (lines : List String) (u : String) :
    ¬(u ∈ (summarizeLines lines).stable ∧ u ∈ keysOf (summarizeLines lines).diffs)
    ∧ ((u ∈ (summarizeLines lines).stable ∨ u ∈ keysOf (summarizeLines lines).diffs)
        ↔ u ∈ keysOf (collect_unit_entries lines)) := by
  constructor
  · rintro ⟨h1, h2⟩
    exact stable_diffs_disjoint (collect_unit_entries lines) (nodup_keys_collect lines) u h1 h2
  · exact stable_diffs_union (collect_unit_entries lines) u

/-- C8, witnessed on the two-unit round-trip log at `unit-a`. -/
theorem c8_partition_witness :
    ¬("unit-a" ∈ (summarizeLines
          ["[unit-a] tofu: No changes. Infrastructure is up-to-date.",
            "[unit-b] tofu: ~ update resource \"x\""]).stable
        ∧ "unit-a" ∈ keysOf (summarizeLines
          ["[unit-a] tofu: No changes. Infrastructure is up-to-date.",
            "[unit-b] tofu: ~ update resource \"x\""]).diffs)
    ∧ (("unit-a" ∈ (summarizeLines
          ["[unit-a] tofu: No changes. Infrastructure is up-to-date.",
            "[unit-b] tofu: ~ update resource \"x\""]).stable
        ∨ "unit-a" ∈ keysOf (summarizeLines
          ["[unit-a] tofu: No changes. Infrastructure is up-to-date.",
            "[unit-b] tofu: ~ update resource \"x\""]).diffs)
        ↔ "unit-a" ∈ keysOf (collect_unit_entries
          ["[unit-a] tofu: No changes. Infrastructure is up-to-date.",
            "[unit-b] tofu: ~ update resource \"x\""])) :=
  c8_partition
    ["[unit-a] tofu: No changes. Infrastructure is up-to-date.",
      "[unit-b] tofu: ~ update resource \"x\""] "unit-a"

/-- C9: a log file none of whose lines match the tofu pattern summarizes
to the empty `StackDiffs`. -/
theorem c9_no_matching_lines (lines : List String)
    (h : ∀ ln ∈ lines, tofuScan ln.data = none) :
    summarizeLines lines = ⟨[], []⟩ := by
  rw [summarizeLines, collect_unit_entries, collect_aux_nomatch lines [] h]
  rfl

/-- C9, witnessed on a log with only unmatched lines. -/
theorem c9_no_matching_lines_witness :
    summarizeLines ["plain line", "terragrunt-exit-code=0"] = ⟨[], []⟩ :=
  c9_no_matching_lines ["plain line", "terragrunt-exit-code=0"] (by decide)

/-- C10: the report command classifies by substring search over the
whole log text in the order `=0`, `=1`, `=2`: any content containing
`terragrunt-exit-code=0` anywhere is classified clean, and a multi-digit
sentinel code beginning with 0, 1 or 2 is classified as that single
digit's state rather than rejected. -/
theorem c10_substring_order :
    (∀ content : String, containsStr content "terragrunt-exit-code=0" = true →
      classifyContent content = Except.ok "NO_CHANGES")
    ∧ classifyContent "terragrunt-exit-code=01\n" = Except.ok "NO_CHANGES"
    ∧ classifyContent "terragrunt-exit-code=10\n" = Except.ok "HAS_ERROR"
    ∧ classifyContent "terragrunt-exit-code=23\n" = Except.ok "HAS_CHANGES" := by
    refine ⟨?_, by rfl, by rfl, by rfl⟩
    intro content h
    have hmarker : containsStr content "terragrunt-exit-code=" = true := by
      have hsplit : ("terragrunt-exit-code=0").data = ("terragrunt-exit-code=").data ++ ['0'] := by
        decide
      exact containsL_mono content.data "terragrunt-exit-code=".data ['0']
        (by simpa [containsStr, hsplit] using h)
    simp [classifyContent, hmarker, h]

/-- C10, witnessed on a log whose last sentinel records code 2 but whose
earlier text contains the `=0` marker: classified clean. -/
theorem c10_substring_order_witness :
    classifyContent "x terragrunt-exit-code=0 y\nterragrunt-exit-code=2\n"
      = Except.ok "NO_CHANGES" :=
  c10_substring_order.1 "x terragrunt-exit-code=0 y\nterragrunt-exit-code=2\n" (by decide)
